import Mathlib

/-!
Verification of `nautilus_tartex.py` (nautilus-tartex), a Nautilus
context-menu extension that shells out to the external `tartex` tool.

The Python module is shallowly embedded below: pure helper computations
become Lean functions on `String` / `List Char`; the stateful handlers
(`_run_tartex_process`, `_on_tartex_complete`, `_filter_msg`,
`_on_search_text_changed`) become functions returning explicit lists of
effects (notifications, spawned commands, dialog contents, highlight
intervals).  An uncaught Python exception is modelled by a `Bool` flag
(or an `Option` result): effects already scheduled before the raise are
kept, later ones are dropped.
-/

namespace NautilusTartex

/-- Whitespace characters as recognised by Python's `str.isspace`,
`str.strip`, `str.split()` and the `re` module's `\s` class.  We list
the ASCII/Latin-1 whitespace characters together with the common
Unicode line/paragraph separators; the remaining rare Unicode `Zs`
code points (which cannot occur in tartex's ASCII log output) are
elided. -/
def isPySpace (c : Char) : Bool :=
  c = ' ' || c = '\t' || c = '\n' || c = '\r' || c = '\x0b' || c = '\x0c' ||
  c = '\x1c' || c = '\x1d' || c = '\x1e' || c = '\x1f' ||
  c = '\x85' || c = '\xa0' || c = '\u2028' || c = '\u2029'

/-- Python `str.strip()`: drop leading and trailing whitespace. -/
def pyStrip (s : String) : String :=
  ⟨((s.data.dropWhile isPySpace).reverse.dropWhile isPySpace).reverse⟩

/-- One step of Python `str.split()` (split on whitespace runs,
dropping empty pieces); accumulator holds the current word reversed. -/
def pySplitAux : List Char → List Char → List (List Char)
  | [], acc => if acc.isEmpty then [] else [acc.reverse]
  | c :: rest, acc =>
    if isPySpace c then
      if acc.isEmpty then pySplitAux rest []
      else acc.reverse :: pySplitAux rest []
    else pySplitAux rest (c :: acc)

/-- Python `str.split()` with no argument. -/
def pySplit (s : String) : List String :=
  (pySplitAux s.data []).map fun l => ⟨l⟩

/-- Line-break characters recognised by Python's `str.splitlines`. -/
def isLineBreakChar (c : Char) : Bool :=
  c = '\n' || c = '\r' || c = '\x0b' || c = '\x0c' ||
  c = '\x1c' || c = '\x1d' || c = '\x1e' ||
  c = '\x85' || c = '\u2028' || c = '\u2029'

/-- Worker for Python `str.splitlines`: `\r\n` counts as a single
break, a trailing break does not open a new (empty) line. -/
def splitlinesAux : List Char → List Char → List (List Char)
  | [], acc => if acc.isEmpty then [] else [acc.reverse]
  | '\r' :: '\n' :: rest, acc => acc.reverse :: splitlinesAux rest []
  | c :: rest, acc =>
    if isLineBreakChar c then acc.reverse :: splitlinesAux rest []
    else splitlinesAux rest (c :: acc)

/-- Python `str.splitlines()`. -/
def splitlines (s : String) : List String :=
  (splitlinesAux s.data []).map fun l => ⟨l⟩

/-- Drop leading `/` characters (junction handling of
`g_build_filenamev`). -/
def dropLeadSlashes (cs : List Char) : List Char :=
  cs.dropWhile (· = '/')

/-- Drop trailing `/` characters (junction handling of
`g_build_filenamev`). -/
def dropTrailSlashes (cs : List Char) : List Char :=
  (cs.reverse.dropWhile (· = '/')).reverse

/-- `GLib.build_filenamev`: join the non-empty components with a
single `/`, collapsing separators at each junction (leading
separators of the first component and trailing separators of the
last are preserved). -/
def buildFilenamev (parts : List String) : String :=
  match parts.filter (fun p => p ≠ "") with
  | [] => ""
  | p :: rest =>
    ⟨rest.foldl
      (fun acc q => dropTrailSlashes acc ++ '/' :: dropLeadSlashes q.data)
      p.data⟩

/-- Index of the last `.` in a character list, if any. -/
def lastDotIdx : List Char → Option Nat
  | [] => none
  | c :: rest =>
    match lastDotIdx rest with
    | some k => some (k + 1)
    | none => if c = '.' then some 0 else none

/-- The stem part of `os.path.splitext` for a plain file name (no
directory separators): split at the last `.`, except that a name
whose characters before the last dot are all dots (e.g. `.cshrc`,
`..tex`) has no extension. -/
def splitextStem (p : String) : String :=
  match lastDotIdx p.data with
  | none => p
  | some k =>
    if (p.data.take k).any (fun c => c ≠ '.') then ⟨p.data.take k⟩ else p

/-- Python `str.endswith` (also the semantics of Lean's
`String.endsWith`, stated on the underlying character lists so that
it evaluates by `decide`). -/
def pyEndsWith (s suffix : String) : Bool :=
  suffix.data.isSuffixOf s.data

/-- Worker for the substring test: does `pat` occur in the list? -/
def substrAux (pat : List Char) : List Char → Bool
  | [] => pat.isEmpty
  | l@(_ :: t) => pat.isPrefixOf l || substrAux pat t

/-- Python's `pat in s` substring test. -/
def strContains (s pat : String) : Bool :=
  substrAux pat.data s.data

/-- A Nautilus file as far as `get_file_items` inspects it. -/
structure FileInfo where
  name : String
  isDirectory : Bool
deriving DecidableEq, Repr

/-- A `Nautilus.MenuItem` as constructed by `get_file_items`. -/
structure MenuItem where
  name : String
  label : String
  tip : String
deriving DecidableEq, Repr

/-- The single menu item `get_file_items` can produce. -/
def createTarballItem : MenuItem :=
  { name := "TartexNautilusExtension::CreateTarball"
    label := "Create TarTeX Archive"
    tip := "Creates a compressed tarball of the project using tartex." }

/-- `TartexNautilusExtension.get_file_items`: a menu item is offered
exactly for a single-file selection of a non-directory whose name
ends in `.tex` or `.fls`. -/
def getFileItems : List FileInfo → List MenuItem
  | [f] =>
    if !f.isDirectory && (pyEndsWith f.name ".tex" || pyEndsWith f.name ".fls") then
      [createTarballItem]
    else []
  | _ => []

/-- The `err_dict` of `_show_error_dialog`: a lookup in this
dictionary of exit codes; a key outside 1–5 raises `KeyError`
(modelled by `none`). -/
def errDict : Int → Option String
  | 1 => some "unknown error"
  | 2 => some "cache access"
  | 3 => some "git checkout"
  | 4 => some "LaTeX compilation"
  | 5 => some "tarball creation"
  | _ => none

/-- The summary label markup built by `_show_error_dialog`
(`f"<b>TarTeX failed at {err_dict[exit_code]}</b>"`); `none` models
the `KeyError` raised when the exit code has no dictionary entry. -/
def errorDialogSummaryLabel (exitCode : Int) : Option String :=
  (errDict exitCode).map fun s => "<b>TarTeX failed at " ++ s ++ "</b>"

/-- Observable effects performed by `_run_tartex_process`. -/
inductive RunEffect where
  | chdir (path : String)
  | notifySend (head msg : String)
  | spawn (cmd : List String)
deriving DecidableEq, Repr

/-- The inputs `_run_tartex_process` reads from its environment:
the selected file, the result of `shutil.which("tartex")`, whether
`<parent>/.git` is a directory, and the `strftime`-formatted
timestamp taken at the moment the handler runs. -/
structure RunInput where
  parentPath : String
  filePath : String
  fileName : String
  tartexPath : Option String
  gitIsDir : Bool
  timestamp : String
deriving DecidableEq, Repr

/-- The `output_name` computed by `_run_tartex_process`:
`GLib.build_filenamev([parent, f"{stem}_{timestamp}.tar.gz"])` with
`stem = os.path.splitext(file_obj.get_name())[0]`. -/
def computedOutputName (parentPath fileName timestamp : String) : String :=
  buildFilenamev [parentPath, splitextStem fileName ++ "_" ++ timestamp ++ ".tar.gz"]

/-- `TartexNautilusExtension._run_tartex_process` as the list of
effects it performs.  The spawned process and its callback are
handled separately by `onTartexComplete`; a spawn failure would only
add a further notification, never a second spawn. -/
def runTartexProcess (inp : RunInput) : List RunEffect :=
  RunEffect.chdir inp.parentPath ::
    match inp.tartexPath with
    | none =>
      [RunEffect.notifySend "Error" "🚨 tartex command not found in PATH"]
    | some tartexPath =>
      let outputName :=
        computedOutputName inp.parentPath inp.fileName inp.timestamp
      let cmd :=
        [tartexPath, inp.filePath, "-b", "-v", "-s"] ++
          (if inp.gitIsDir then
            ["--overwrite", "--git-rev", "--output", inp.parentPath]
          else
            ["--output", outputName])
      [RunEffect.spawn cmd]

/-- The commands spawned among a list of run effects. -/
def spawnedCmds (effs : List RunEffect) : List (List String) :=
  effs.filterMap fun e =>
    match e with
    | RunEffect.spawn cmd => some cmd
    | _ => none

/-- Observable effects scheduled by `_on_tartex_complete`.  The
`updateRecent` effect records the URI of the selected file and the
path passed to `GLib.filename_to_uri` (URI escaping is elided). -/
inductive CompleteEffect where
  | notifySend (head msg : String)
  | showErrorDialog (errorDetails : String) (exitCode : Int)
  | updateRecent (fileUri outputFilePath : String)
deriving DecidableEq, Repr

/-- The inputs of `_on_tartex_complete`: the subprocess exit status,
its captured stdout and stderr, and the selected file's name, parent
directory path and URI. -/
structure CompleteInput where
  exitCode : Int
  stdout : String
  stderr : String
  fileName : String
  parentPath : String
  fileUri : String
deriving DecidableEq, Repr

/-- Rest of the current line: what `.*` matches (every character but
`\n`, including `\r`). -/
def restOfLine (cs : List Char) : List Char :=
  cs.takeWhile (fun c => c ≠ '\n')

/-- Try the regex `Summary:\s(.*)$` at one position of the text; on
success return the text captured by `(.*)`. -/
def summaryAt (cs : List Char) : Option (List Char) :=
  if "Summary:".data.isPrefixOf cs then
    match cs.drop 8 with
    | c :: rest => if isPySpace c then some (restOfLine rest) else none
    | [] => none
  else none

/-- Scan for the leftmost match of `re.search` with the multiline
pattern `^Summary:\s(.*)$`: `^` holds at the start of the text and
right after each `\n`.  Returns the captured group. -/
def summarySearchAux : List Char → Bool → Option (List Char)
  | [], _ => none
  | cs@(c :: rest), atLineStart =>
    match (if atLineStart then summaryAt cs else none) with
    | some r => some r
    | none => summarySearchAux rest (c = '\n')

/-- `re.compile(r"^Summary:\s(.*)$", re.MULTILINE).search(stdout)`,
returning group 1 of the leftmost match. -/
def summarySearch (s : String) : Option (List Char) :=
  summarySearchAux s.data true

/-- The success message computed in the `else` branch of
`_on_tartex_complete`.  `none` models an uncaught `IndexError`:
`success_msg[-1]` on an empty captured group, or
`stdout.splitlines()[-1]` on an empty stdout.  After
`re_summary.sub(r"\1", success_match.group(0))` the message is
exactly the captured group. -/
def successMessage (inp : CompleteInput) : Option String :=
  match summarySearch inp.stdout with
  | some rest =>
    match rest.getLast? with
    | none => none
    | some lastChar =>
      if lastChar ≠ '.' then
        match (splitlines inp.stdout).getLast? with
        | some lastLine => some (⟨rest⟩ ++ " " ++ lastLine)
        | none => none
      else some (⟨rest⟩ : String)
  | none => some ("Created TarTeX archive using " ++ inp.fileName)

/-- The tail of the success branch of `_on_tartex_complete`: the
`TarTeX Success` notification is scheduled, then `_update_recent` is
scheduled with `GLib.build_filenamev([parent, success_msg.split()[1]])`
unless `success_msg.split()[1]` raises `IndexError` (fewer than two
words), in which case the handler stops after the notification. -/
def successEffects (inp : CompleteInput) (msg : String) :
    List CompleteEffect × Bool :=
  match (pySplit msg)[1]? with
  | none => ([CompleteEffect.notifySend "TarTeX Success" msg], true)
  | some word =>
    ([CompleteEffect.notifySend "TarTeX Success" msg,
      CompleteEffect.updateRecent inp.fileUri
        (buildFilenamev [inp.parentPath, word])],
      false)

/-- `TartexNautilusExtension._on_tartex_complete` as the list of
effects it schedules, paired with a flag that is `true` when the
handler raises an uncaught exception after those effects. -/
def onTartexComplete (inp : CompleteInput) : List CompleteEffect × Bool :=
  if inp.exitCode ≠ 0 then
    ([CompleteEffect.notifySend "TarTeX Error"
        ("🚨 Failed to create archive using " ++ inp.fileName),
      CompleteEffect.showErrorDialog (inp.stdout ++ "\n") inp.exitCode],
      false)
  else
    match successMessage inp with
    | none => ([], true)
    | some msg => successEffects inp msg

/-- Python `str.lower` applied character by character (ASCII case
mapping; tartex log output is ASCII, where `str.lower` is exactly
this length-preserving map). -/
def pyLower (s : String) : String :=
  ⟨s.data.map Char.toLower⟩

/-- `patL` occurs in `textL` at position `i`. -/
def occursAt (textL patL : List Char) (i : Nat) : Bool :=
  patL.isPrefixOf (textL.drop i)

/-- Bounded scan for the smallest position `j ≥ i` at which `patL`
occurs; `fuel` bounds the number of positions inspected. -/
def findFromAux (textL patL : List Char) : Nat → Nat → Option Nat
  | 0, _ => none
  | fuel + 1, i =>
    if occursAt textL patL i then some i
    else findFromAux textL patL fuel (i + 1)

/-- Python `text.find(pat, off)` (restricted to `≥ off`): the least
index `≥ off` where `pat` occurs, else `none`. -/
def findFromIdx (textL patL : List Char) (off : Nat) : Option Nat :=
  findFromAux textL patL (textL.length + 1 - off) off

/-- The `while True` loop of `_on_search_text_changed`: find the next
occurrence, record the highlight interval
`(match_index, match_index + len(query))`, resume after the match.
`fuel` bounds the iterations (the loop itself terminates because the
offset strictly increases for a non-empty query). -/
def searchLoop (textL patL : List Char) : Nat → Nat → List (Nat × Nat)
  | _, 0 => []
  | offset, fuel + 1 =>
    match findFromIdx textL patL offset with
    | none => []
    | some m =>
      (m, m + patL.length) :: searchLoop textL patL (m + patL.length) fuel

/-- `_on_search_text_changed`: the intervals of the text buffer
covered by the `match_highlight` tag after the handler runs (old
highlights are removed first, so these are all of them).  The query
is stripped; an empty stripped query leaves nothing highlighted;
otherwise both query and buffer text are lowered and scanned. -/
def onSearchTextChanged (bufferText query : String) : List (Nat × Nat) :=
  if pyStrip query = "" then []
  else
    searchLoop (pyLower bufferText).data (pyLower (pyStrip query)).data 0
      ((pyLower bufferText).data.length + 1)

/-- The `lead_dict` of `_filter_msg`; a key outside the three toggle
names raises `KeyError` (modelled by `none`). -/
def leadDict : String → Option String
  | "All" => some ""
  | "Errors" => some "CRITICAL|ERROR"
  | "Warnings" => some "WARNING"
  | _ => none

/-- One alternative of the filter regex
`^(?:CRITICAL|ERROR\s).*$` / `^(?:WARNING\s).*$`: the literal lead
word, and whether a `\s` character must follow it (the `\s` in the
pattern attaches only to the last alternative of the alternation). -/
structure LeadAlt where
  lead : String
  needsWs : Bool
deriving DecidableEq, Repr

/-- Try one alternative at a position: the lead must be a prefix;
with `needsWs` the next character must match `\s` (which may be the
terminating `\n` itself, extending the match into the next line);
then `.*` greedily takes the rest of the current line.  Returns the
full matched text. -/
def tryAltAt (alt : LeadAlt) (cs : List Char) : Option (List Char) :=
  if alt.lead.data.isPrefixOf cs then
    if alt.needsWs then
      match cs.drop alt.lead.data.length with
      | c :: rest2 =>
        if isPySpace c then some (alt.lead.data ++ c :: restOfLine rest2)
        else none
      | [] => none
    else some (alt.lead.data ++ restOfLine (cs.drop alt.lead.data.length))
  else none

/-- Try the alternatives of the alternation in order (as the regex
engine does). -/
def tryAlts (alts : List LeadAlt) (cs : List Char) : Option (List Char) :=
  match alts with
  | [] => none
  | alt :: t =>
    match tryAltAt alt cs with
    | some m => some m
    | none => tryAlts t cs

/-- `re.findall` with a pattern `^(?:...).*$` under `re.MULTILINE`:
scan left to right; at each line-start position try the alternation;
on a match emit it and resume right after it (the position after a
match sits on a `\n` or at the end, never at a line start).  `fuel`
bounds the scan; every step consumes at least one character. -/
def findallAux (alts : List LeadAlt) : Nat → List Char → Bool → List (List Char)
  | 0, _, _ => []
  | fuel + 1, cs, atLineStart =>
    match (if atLineStart then tryAlts alts cs else none), cs with
    | some m, _ => m :: findallAux alts fuel (cs.drop m.length) false
    | none, [] => []
    | none, c :: rest => findallAux alts fuel rest (c = '\n')

/-- The alternatives of `^(?:CRITICAL|ERROR\s).*$`. -/
def errorsAlts : List LeadAlt :=
  [{ lead := "CRITICAL", needsWs := false }, { lead := "ERROR", needsWs := true }]

/-- The alternatives of `^(?:WARNING\s).*$`. -/
def warningsAlts : List LeadAlt :=
  [{ lead := "WARNING", needsWs := true }]

/-- `lead_filter.findall(error_details)` for the given alternation. -/
def findallMatches (alts : List LeadAlt) (errorDetails : String) : List String :=
  (findallAux alts (errorDetails.data.length + 1) errorDetails.data true).map
    fun l => ⟨l⟩

/-- The `new_msg` accumulation of `_filter_msg`: each match followed
by a newline. -/
def concatWithNl (ms : List String) : String :=
  ms.foldl (fun acc m => acc ++ m ++ "\n") ""

/-- `_filter_msg`: the text the buffer is set to for a given active
toggle name; `none` models the `KeyError` from `lead_dict` for an
unknown toggle name (raised while building the pattern, before any
branch runs). -/
def filterMsg (activeToggle : String) (errorDetails : String) : Option String :=
  match leadDict activeToggle with
  | none => none
  | some _ =>
    if activeToggle = "All" then some errorDetails
    else if activeToggle = "Errors" then
      some (concatWithNl (findallMatches errorsAlts errorDetails))
    else if activeToggle = "Warnings" then
      some (concatWithNl (findallMatches warningsAlts errorDetails))
    else some errorDetails

/-- The lines of a text as `str.splitOn "\n")` produces them: the
segments between the `\n` characters (the positions where the
`re.MULTILINE` anchor `^` holds are exactly their starts). -/
def linesOnL : List Char → List (List Char)
  | [] => [[]]
  | c :: rest =>
    if c = '\n' then [] :: linesOnL rest
    else
      match linesOnL rest with
      | l :: ls => (c :: l) :: ls
      | [] => [[c]]

/-- The claim's per-line reading of `^(?:CRITICAL|ERROR\s).*$`: the
regex applied to one line on its own, so a line beginning `CRITICAL`
matches outright while a line beginning `ERROR` must have a
whitespace character right after it within the line. -/
def errorsLineMatch (line : List Char) : Bool :=
  "CRITICAL".data.isPrefixOf line ||
  ("ERROR".data.isPrefixOf line &&
    (match line.drop 5 with
     | c :: _ => isPySpace c
     | [] => false))

/-- The claim's per-line reading of `^(?:WARNING\s).*$`. -/
def warningsLineMatch (line : List Char) : Bool :=
  "WARNING".data.isPrefixOf line &&
  (match line.drop 7 with
   | c :: _ => isPySpace c
   | [] => false)

/-- Well-formedness of a regex alternative: a non-empty lead word
that contains no newline (true of `CRITICAL`, `ERROR`, `WARNING`). -/
def altWf (alt : LeadAlt) : Prop :=
  alt.lead.data ≠ [] ∧ ∀ c ∈ alt.lead.data, c ≠ '\n'

/-- The proviso under which the multiline `findall` coincides with
per-line filtering: no line before the last consists exactly of a
whitespace-requiring lead word (such a line would make `\s` match
the terminating newline and the match span into the next line). -/
def noBareLeadLine (alts : List LeadAlt) (cs : List Char) : Prop :=
  ∀ alt ∈ alts, alt.needsWs = true →
    alt.lead.data ∉ (linesOnL cs).dropLast

/-- The selection condition under which `get_file_items` offers its
menu item. -/
def menuCondition (items : List FileInfo) : Prop :=
  ∃ f, items = [f] ∧ f.isDirectory = false ∧
    (pyEndsWith f.name ".tex" = true ∨ pyEndsWith f.name ".fls" = true)

/-- A run with exit status 0 whose stdout `Summary:` line has an
empty remainder. -/
def emptySummaryInput : CompleteInput :=
  { exitCode := 0, stdout := "Summary: \n", stderr := "",
    fileName := "doc.tex", parentPath := "/home/u",
    fileUri := "file:///home/u/doc.tex" }

/-- A failing run with exit status 2. -/
def failingRunInput : CompleteInput :=
  { exitCode := 2, stdout := "out line", stderr := "",
    fileName := "doc.tex", parentPath := "/p", fileUri := "u" }

/-- A successful run whose stdout has no `Summary:` line. -/
def noSummaryInput : CompleteInput :=
  { exitCode := 0, stdout := "no summary here", stderr := "",
    fileName := "doc.tex", parentPath := "/p", fileUri := "u" }

/-- A failing run whose stderr carries a message that does not occur
in its stdout. -/
def stderrOnlyInput : CompleteInput :=
  { exitCode := 1, stdout := "compile output", stderr := "fatal: broken",
    fileName := "doc.tex", parentPath := "/p", fileUri := "u" }

/-- A failing run with exit status 3. -/
def failingRun3Input : CompleteInput :=
  { exitCode := 3, stdout := "stdout text", stderr := "ignored",
    fileName := "doc.tex", parentPath := "/p", fileUri := "u" }

/-- A run with exit status 0 whose stdout is a lone `Summary:` line
with an empty remainder. -/
def emptySummary2Input : CompleteInput :=
  { exitCode := 0, stdout := "Summary:\t", stderr := "",
    fileName := "doc.tex", parentPath := "/p", fileUri := "u" }

/-- A successful run with a period-terminated `Summary:` line. -/
def periodSummaryInput : CompleteInput :=
  { exitCode := 0, stdout := "Summary: all done.", stderr := "",
    fileName := "doc.tex", parentPath := "/p", fileUri := "u" }

/-- A successful run with a wrapped `Summary:` line (no trailing
period). -/
def wrappedSummaryInput : CompleteInput :=
  { exitCode := 0, stdout := "Summary: made archive\nlast line",
    stderr := "", fileName := "doc.tex", parentPath := "/p",
    fileUri := "u" }

/-! ## Helper lemmas -/

theorem getFileItems_eq_single (f : FileInfo)
    (h : f.isDirectory = false)
    (h2 : pyEndsWith f.name ".tex" = true ∨ pyEndsWith f.name ".fls" = true) :
    getFileItems [f] = [createTarballItem] := by
  unfold getFileItems
  have : (!f.isDirectory && (pyEndsWith f.name ".tex" || pyEndsWith f.name ".fls")) = true := by
    rcases h2 with h2 | h2 <;> simp [h, h2]
  simp [this]

theorem getFileItems_eq_nil (items : List FileInfo)
    (h : ¬ menuCondition items) : getFileItems items = [] := by
  match items with
  | [] => rfl
  | f :: g :: t => rfl
  | [f] =>
    unfold getFileItems
    have hcond : (!f.isDirectory && (pyEndsWith f.name ".tex" || pyEndsWith f.name ".fls")) = false := by
      by_contra hc
      have hc' : (!f.isDirectory && (pyEndsWith f.name ".tex" || pyEndsWith f.name ".fls")) = true := by
        revert hc
        cases !f.isDirectory && (pyEndsWith f.name ".tex" || pyEndsWith f.name ".fls") <;> simp
      exact h ⟨f, rfl, by
        constructor
        · cases hd : f.isDirectory
          · rfl
          · rw [hd] at hc'; simp at hc'
        · have := (Bool.and_eq_true _ _).mp hc'
          rcases (Bool.or_eq_true _ _).mp this.2 with h2 | h2
          · exact Or.inl h2
          · exact Or.inr h2⟩
    simp [hcond]

/-- C1: `get_file_items` returns the one-element list containing the
menu item named `TartexNautilusExtension::CreateTarball` with label
`Create TarTeX Archive` if and only if the selection is a single
non-directory item whose name ends with `.tex` or `.fls`; in every
other case it returns the empty list. -/
theorem C1_getFileItems_iff (items : List FileInfo) :
    ((∃ mi, getFileItems items = [mi] ∧
        mi.name = "TartexNautilusExtension::CreateTarball" ∧
        mi.label = "Create TarTeX Archive") ↔ menuCondition items)
    ∧ (¬ menuCondition items → getFileItems items = []) := by
  constructor
  · constructor
    · rintro ⟨mi, hmi, -, -⟩
      by_contra h
      rw [getFileItems_eq_nil items h] at hmi
      exact List.noConfusion hmi
    · rintro ⟨f, rfl, hd, he⟩
      exact ⟨createTarballItem, getFileItems_eq_single f hd he, rfl, rfl⟩
  · exact getFileItems_eq_nil items

/-- Closed-form evaluation of `C1_getFileItems_iff` at concrete
selections, discharging each hypothesis. -/
theorem C1_getFileItems_iff_witness :
    (∃ mi, getFileItems [{ name := "main.tex", isDirectory := false }] = [mi]
       ∧ mi.name = "TartexNautilusExtension::CreateTarball"
       ∧ mi.label = "Create TarTeX Archive")
    ∧ getFileItems [{ name := "main.pdf", isDirectory := false }] = [] := by
  refine ⟨?_, ?_⟩
  · exact (C1_getFileItems_iff [{ name := "main.tex", isDirectory := false }]).1.mpr
      ⟨_, rfl, rfl, Or.inl (by decide)⟩
  · refine (C1_getFileItems_iff _).2 ?_
    rintro ⟨f, hf, -, he⟩
    have hfe : f = { name := "main.pdf", isDirectory := false } := by
      injection hf with h1 h2
      exact h1.symm
    subst hfe
    revert he
    decide

theorem errDict_eq_ite (c : Int) :
    errDict c =
      if c = 1 then some "unknown error"
      else if c = 2 then some "cache access"
      else if c = 3 then some "git checkout"
      else if c = 4 then some "LaTeX compilation"
      else if c = 5 then some "tarball creation"
      else none := by
  unfold errDict
  split <;> simp_all

/-- C8: the error dialog's summary label comes from a dictionary
whose only keys are 1–5 with the five fixed phrases; for exit codes
in 1–5 the lookup succeeds with the corresponding phrase, and for
any other exit code the lookup (and hence the label construction)
has no entry (`KeyError`, modelled as `none`). -/
theorem C8_errDict_lookup (c : Int) :
    ((errorDialogSummaryLabel c).isSome = true ↔
      (c = 1 ∨ c = 2 ∨ c = 3 ∨ c = 4 ∨ c = 5))
    ∧ errorDialogSummaryLabel 1 = some "<b>TarTeX failed at unknown error</b>"
    ∧ errorDialogSummaryLabel 2 = some "<b>TarTeX failed at cache access</b>"
    ∧ errorDialogSummaryLabel 3 = some "<b>TarTeX failed at git checkout</b>"
    ∧ errorDialogSummaryLabel 4 = some "<b>TarTeX failed at LaTeX compilation</b>"
    ∧ errorDialogSummaryLabel 5 = some "<b>TarTeX failed at tarball creation</b>"
    ∧ (c ≠ 0 → ¬(c = 1 ∨ c = 2 ∨ c = 3 ∨ c = 4 ∨ c = 5) →
        errorDialogSummaryLabel c = none) := by
  refine ⟨?_, rfl, rfl, rfl, rfl, rfl, ?_⟩
  · unfold errorDialogSummaryLabel
    rw [errDict_eq_ite]
    by_cases h1 : c = 1
    · simp [h1]
    · by_cases h2 : c = 2
      · simp [h2]
      · by_cases h3 : c = 3
        · simp [h3]
        · by_cases h4 : c = 4
          · simp [h4]
          · by_cases h5 : c = 5
            · simp [h5]
            · simp [h1, h2, h3, h4, h5]
  · intro _ hn
    push_neg at hn
    obtain ⟨h1, h2, h3, h4, h5⟩ := hn
    unfold errorDialogSummaryLabel
    rw [errDict_eq_ite]
    simp [h1, h2, h3, h4, h5]

/-- Closed-form evaluation of `C8_errDict_lookup`, discharging its
hypotheses at the concrete exit code 6. -/
theorem C8_errDict_lookup_witness :
    errorDialogSummaryLabel 6 = none :=
  (C8_errDict_lookup 6).2.2.2.2.2.2 (by decide) (by decide)

/-- C2: when `tartex` is resolved, the (single) spawned command line
is exactly `[tartex path, file path, "-b", "-v", "-s"]` followed by
`["--overwrite", "--git-rev", "--output", parent dir]` when the
parent directory has a `.git` subdirectory, and by
`["--output", timestamped output path]` otherwise. -/
theorem C2_spawned_cmd (inp : RunInput) (tartexPath : String)
    (h : inp.tartexPath = some tartexPath) :
    spawnedCmds (runTartexProcess inp) =
      [[tartexPath, inp.filePath, "-b", "-v", "-s"] ++
        (if inp.gitIsDir then
          ["--overwrite", "--git-rev", "--output", inp.parentPath]
        else
          ["--output",
            computedOutputName inp.parentPath inp.fileName inp.timestamp])] := by
  unfold runTartexProcess spawnedCmds
  rw [h]
  cases inp.gitIsDir <;> simp

/-- Closed-form evaluation of `C2_spawned_cmd` at concrete inputs for
both the git and the non-git branch. -/
theorem C2_spawned_cmd_witness :
    spawnedCmds (runTartexProcess
      { parentPath := "/home/u/proj", filePath := "/home/u/proj/main.tex",
        fileName := "main.tex", tartexPath := some "/usr/bin/tartex",
        gitIsDir := true, timestamp := "20251012_120000" }) =
      [["/usr/bin/tartex", "/home/u/proj/main.tex", "-b", "-v", "-s",
        "--overwrite", "--git-rev", "--output", "/home/u/proj"]]
    ∧ spawnedCmds (runTartexProcess
      { parentPath := "/home/u/proj", filePath := "/home/u/proj/main.tex",
        fileName := "main.tex", tartexPath := some "/usr/bin/tartex",
        gitIsDir := false, timestamp := "20251012_120000" }) =
      [["/usr/bin/tartex", "/home/u/proj/main.tex", "-b", "-v", "-s",
        "--output", "/home/u/proj/main_20251012_120000.tar.gz"]] := by
  constructor
  · rw [C2_spawned_cmd _ "/usr/bin/tartex" rfl]
    rfl
  · rw [C2_spawned_cmd _ "/usr/bin/tartex" rfl]
    rfl

/-- C9: when `shutil.which("tartex")` returns `None`, the handler
updates the notification to `Error` with a message containing
`tartex command not found in PATH` and spawns nothing; a subprocess
is spawned only when tartex is found, and at most one subprocess is
spawned per activation. -/
theorem C9_which_guard (inp : RunInput) :
    (inp.tartexPath = none →
       runTartexProcess inp =
         [RunEffect.chdir inp.parentPath,
          RunEffect.notifySend "Error" "🚨 tartex command not found in PATH"]
       ∧ strContains "🚨 tartex command not found in PATH"
           "tartex command not found in PATH" = true
       ∧ spawnedCmds (runTartexProcess inp) = [])
    ∧ (spawnedCmds (runTartexProcess inp)).length ≤ 1
    ∧ (spawnedCmds (runTartexProcess inp) ≠ [] →
        inp.tartexPath.isSome = true) := by
  refine ⟨fun h => ⟨?_, by decide, ?_⟩, ?_, ?_⟩
  · unfold runTartexProcess; rw [h]
  · unfold runTartexProcess spawnedCmds; rw [h]; rfl
  · unfold runTartexProcess spawnedCmds
    cases inp.tartexPath <;> simp
  · intro hne
    cases h : inp.tartexPath with
    | some _ => rfl
    | none =>
      exfalso
      apply hne
      unfold runTartexProcess spawnedCmds
      rw [h]
      rfl

/-- Closed-form evaluation of `C9_which_guard`, discharging its
hypotheses: no spawn without tartex, and a spawn implies tartex was
found. -/
theorem C9_which_guard_witness :
    spawnedCmds (runTartexProcess
      { parentPath := "/p", filePath := "/p/a.tex", fileName := "a.tex",
        tartexPath := none, gitIsDir := false, timestamp := "t" }) = []
    ∧ Option.isSome (RunInput.tartexPath
        { parentPath := "/p", filePath := "/p/a.tex", fileName := "a.tex",
          tartexPath := some "/usr/bin/tartex", gitIsDir := false,
          timestamp := "t" }) = true := by
  constructor
  · exact ((C9_which_guard _).1 rfl).2.2
  · exact (C9_which_guard
      { parentPath := "/p", filePath := "/p/a.tex", fileName := "a.tex",
        tartexPath := some "/usr/bin/tartex", gitIsDir := false,
        timestamp := "t" }).2.2 (by decide)

theorem lastDotIdx_of_no_dot (l : List Char) (h : ∀ c ∈ l, c ≠ '.') :
    lastDotIdx l = none := by
  induction l with
  | nil => rfl
  | cons c t ih =>
    unfold lastDotIdx
    rw [ih fun x hx => h x (List.mem_cons_of_mem c hx)]
    simp [h c (List.mem_cons_self c t)]

theorem lastDotIdx_append_dot (b e : List Char) (h : ∀ c ∈ e, c ≠ '.') :
    lastDotIdx (b ++ '.' :: e) = some b.length := by
  induction b with
  | nil =>
    have hstep : lastDotIdx ([] ++ '.' :: e) =
        match lastDotIdx e with
        | some k => some (k + 1)
        | none => if ('.' : Char) = '.' then some 0 else none := rfl
    rw [hstep, lastDotIdx_of_no_dot e h]
    simp
  | cons c b' ih =>
    have hstep : lastDotIdx ((c :: b') ++ '.' :: e) =
        match lastDotIdx (b' ++ '.' :: e) with
        | some k => some (k + 1)
        | none => if c = '.' then some 0 else none := rfl
    rw [hstep, ih]
    rfl

theorem splitextStem_extension (base ext : String)
    (hext : ∀ c ∈ ext.data, c ≠ '.')
    (hbase : ∃ c ∈ base.data, c ≠ '.') :
    splitextStem (base ++ "." ++ ext) = base := by
  have hdata : (base ++ "." ++ ext).data = base.data ++ '.' :: ext.data := by
    rw [String.data_append, String.data_append]
    simp
  unfold splitextStem
  rw [hdata, lastDotIdx_append_dot base.data ext.data hext]
  dsimp only
  rw [List.take_left base.data ('.' :: ext.data)]
  obtain ⟨c, hc, hcd⟩ := hbase
  have hany : (base.data.any fun c => decide (c ≠ '.')) = true := by
    rw [List.any_eq_true]
    exact ⟨c, hc, by simp [hcd]⟩
  rw [if_pos hany]

/-- C6: in the non-git case the `--output` argument is the parent
directory path joined with `<stem>_<timestamp>.tar.gz`, where the
stem is the selected file's name with its final extension removed
(here characterized by `fileName = base ++ "." ++ ext` with a
dot-free extension and a base containing a non-dot character, the
well-formed case of `os.path.splitext`) and the timestamp is the
`%Y%m%d_%H%M%S`-formatted time taken when the handler ran. -/
theorem C6_output_path (inp : RunInput) (tartexPath base ext : String)
    (hwhich : inp.tartexPath = some tartexPath)
    (hgit : inp.gitIsDir = false)
    (hname : inp.fileName = base ++ "." ++ ext)
    (hext : ∀ c ∈ ext.data, c ≠ '.')
    (hbase : ∃ c ∈ base.data, c ≠ '.') :
    spawnedCmds (runTartexProcess inp) =
      [[tartexPath, inp.filePath, "-b", "-v", "-s", "--output",
        buildFilenamev [inp.parentPath,
          base ++ "_" ++ inp.timestamp ++ ".tar.gz"]]] := by
  unfold runTartexProcess spawnedCmds
  rw [hwhich, hgit]
  simp only [Bool.false_eq_true, if_false, List.filterMap]
  unfold computedOutputName
  rw [hname, splitextStem_extension base ext hext hbase]
  rfl

/-- Closed-form evaluation of `C6_output_path` at a concrete input,
discharging each hypothesis. -/
theorem C6_output_path_witness :
    spawnedCmds (runTartexProcess
      { parentPath := "/home/u/proj", filePath := "/home/u/proj/main.tex",
        fileName := "main.tex", tartexPath := some "/usr/bin/tartex",
        gitIsDir := false, timestamp := "20251012_120000" }) =
      [["/usr/bin/tartex", "/home/u/proj/main.tex", "-b", "-v", "-s",
        "--output",
        buildFilenamev ["/home/u/proj", "main" ++ "_" ++ "20251012_120000" ++ ".tar.gz"]]] := by
  exact C6_output_path _ "/usr/bin/tartex" "main" "tex" rfl rfl rfl
    (by decide) (by decide)

set_option maxHeartbeats 1000000 in
theorem splitlinesAux_ne_nil (cs acc : List Char) :
    (cs ≠ [] ∨ acc ≠ []) → splitlinesAux cs acc ≠ [] := by
  induction cs, acc using splitlinesAux.induct with
  | case1 acc hemp =>
    intro h
    rcases h with h | h
    · exact absurd rfl h
    · exact absurd (List.isEmpty_iff.mp hemp) h
  | case2 acc hemp =>
    intro _
    have hstep : splitlinesAux [] acc =
        if acc.isEmpty then [] else [acc.reverse] := rfl
    rw [hstep, if_neg hemp]
    exact fun hc => List.noConfusion hc
  | case3 rest acc ih =>
    intro _
    have hstep : splitlinesAux ('\r' :: '\n' :: rest) acc =
        acc.reverse :: splitlinesAux rest [] := rfl
    rw [hstep]
    exact fun hc => List.noConfusion hc
  | case4 c rest acc hpat hlb ih =>
    intro _
    rw [splitlinesAux]
    · simp [hlb]
    · exact hpat
  | case5 c rest acc hpat hlb ih =>
    intro _
    rw [splitlinesAux]
    · rw [if_neg (by simp [hlb])]
      exact ih (Or.inr (fun hc => List.noConfusion hc))
    · exact hpat

theorem splitlines_ne_nil (s : String) (h : s.data ≠ []) :
    splitlines s ≠ [] := by
  unfold splitlines
  intro hmap
  exact splitlinesAux_ne_nil s.data [] (Or.inl h) (List.map_eq_nil_iff.mp hmap)

theorem summarySearch_data_ne_nil (s : String) (r : List Char)
    (h : summarySearch s = some r) : s.data ≠ [] := by
  intro hnil
  unfold summarySearch at h
  rw [hnil] at h
  exact Option.noConfusion h

theorem getLast?_of_ne_nil {α : Type} (l : List α) (h : l ≠ []) :
    ∃ a, l.getLast? = some a := by
  cases hg : l.getLast? with
  | none => exact absurd (List.getLast?_eq_none_iff.mp hg) h
  | some a => exact ⟨a, rfl⟩

/-- Reduction of `successMessage` once the `Summary:` search result
is known. -/
theorem successMessage_eq_of_some (inp : CompleteInput) (rest : List Char)
    (hsome : summarySearch inp.stdout = some rest) :
    successMessage inp =
      match rest.getLast? with
      | none => none
      | some lastChar =>
        if lastChar ≠ '.' then
          match (splitlines inp.stdout).getLast? with
          | some lastLine => some (String.mk rest ++ " " ++ lastLine)
          | none => none
        else some (String.mk rest) := by
  unfold successMessage
  rw [hsome]

/-- Further reduction of `successMessage` once the last character of
the captured group is also known. -/
theorem successMessage_eq_of_last (inp : CompleteInput) (rest : List Char)
    (lastChar : Char) (hsome : summarySearch inp.stdout = some rest)
    (hlast : rest.getLast? = some lastChar) :
    successMessage inp =
      if lastChar ≠ '.' then
        match (splitlines inp.stdout).getLast? with
        | some lastLine => some (String.mk rest ++ " " ++ lastLine)
        | none => none
      else some (String.mk rest) := by
  rw [successMessage_eq_of_some inp rest hsome, hlast]

theorem successMessage_isSome (inp : CompleteInput)
    (h : summarySearch inp.stdout = none ∨
         ∃ rest, summarySearch inp.stdout = some rest ∧ rest ≠ []) :
    ∃ msg, successMessage inp = some msg := by
  rcases h with h | ⟨rest, hsome, hne⟩
  · exact ⟨_, by unfold successMessage; rw [h]⟩
  · obtain ⟨lastChar, hlast⟩ := getLast?_of_ne_nil rest hne
    rw [successMessage_eq_of_last inp rest lastChar hsome hlast]
    by_cases hdot : lastChar = '.'
    · exact ⟨_, by rw [if_neg (by simp [hdot])]⟩
    · obtain ⟨lastLine, hl⟩ := getLast?_of_ne_nil (splitlines inp.stdout)
        (splitlines_ne_nil inp.stdout
          (summarySearch_data_ne_nil inp.stdout rest hsome))
      rw [hl]
      exact ⟨_, by rw [if_pos (by simp [hdot])]⟩

theorem successEffects_head (inp : CompleteInput) (msg : String) :
    (successEffects inp msg).1.head? =
      some (CompleteEffect.notifySend "TarTeX Success" msg) := by
  unfold successEffects
  cases hg : (pySplit msg)[1]? with
  | none => rfl
  | some w => rfl

theorem onTartexComplete_head_of_msg (inp : CompleteInput)
    (h0 : inp.exitCode = 0) (msg : String)
    (hm : successMessage inp = some msg) :
    (onTartexComplete inp).1.head? =
      some (CompleteEffect.notifySend "TarTeX Success" msg) := by
  unfold onTartexComplete
  rw [if_neg (fun hne => hne h0), hm]
  exact successEffects_head inp msg

/-- C3 counterexample: with exit status 0 and stdout whose `Summary:`
line has an empty remainder, `success_msg[-1]` raises `IndexError`
before `GLib.timeout_add` runs, so no notification is scheduled at
all (the effect list is empty and the raised flag is set), contrary
to the claim that the notification is always updated to
`TarTeX Success` on a zero exit status. -/
theorem C3_success_notify_cex :
    emptySummaryInput.exitCode = 0
    ∧ (onTartexComplete emptySummaryInput).1 = []
    ∧ (onTartexComplete emptySummaryInput).2 = true := by
  exact ⟨rfl, rfl, rfl⟩

/-- C3 (amended): on a nonzero exit status the notification is
updated to `TarTeX Error` with a message naming the selected file and
a modal error dialog showing the process output is scheduled; on a
zero exit status no error dialog is ever shown, and the notification
is updated to `TarTeX Success` provided the `Summary:` remainder, if
a `Summary:` line exists, is nonempty (otherwise the handler raises
`IndexError` before updating the notification). -/
theorem C3_completion_branches (inp : CompleteInput) :
    (inp.exitCode ≠ 0 →
       (onTartexComplete inp).1 =
         [CompleteEffect.notifySend "TarTeX Error"
            ("🚨 Failed to create archive using " ++ inp.fileName),
          CompleteEffect.showErrorDialog (inp.stdout ++ "\n") inp.exitCode])
    ∧ (inp.exitCode = 0 →
        (∀ d c, CompleteEffect.showErrorDialog d c ∉ (onTartexComplete inp).1)
        ∧ ((summarySearch inp.stdout = none ∨
            ∃ rest, summarySearch inp.stdout = some rest ∧ rest ≠ []) →
           ∃ msg, CompleteEffect.notifySend "TarTeX Success" msg ∈
             (onTartexComplete inp).1)) := by
  constructor
  · intro h
    unfold onTartexComplete
    rw [if_pos h]
  · intro h0
    constructor
    · intro d c
      unfold onTartexComplete
      rw [if_neg (fun hne => hne h0)]
      cases hs : successMessage inp with
      | none => simp
      | some msg =>
        show CompleteEffect.showErrorDialog d c ∉ (successEffects inp msg).1
        unfold successEffects
        cases hg : (pySplit msg)[1]? with
        | none => simp
        | some w => simp
    · intro hcond
      obtain ⟨msg, hm⟩ := successMessage_isSome inp hcond
      refine ⟨msg, ?_⟩
      have hh := onTartexComplete_head_of_msg inp h0 msg hm
      exact List.mem_of_mem_head? (by rw [hh]; exact Option.mem_def.mpr rfl)

/-- Closed-form evaluation of `C3_completion_branches`, discharging
its hypotheses in both branches at concrete inputs. -/
theorem C3_completion_branches_witness :
    (onTartexComplete failingRunInput).1 =
      [CompleteEffect.notifySend "TarTeX Error"
         "🚨 Failed to create archive using doc.tex",
       CompleteEffect.showErrorDialog "out line\n" 2]
    ∧ (∃ msg, CompleteEffect.notifySend "TarTeX Success" msg ∈
        (onTartexComplete noSummaryInput).1) := by
  constructor
  · exact (C3_completion_branches _).1 (by decide)
  · exact ((C3_completion_branches _).2 rfl).2 (Or.inl (by decide))

/-- C4 counterexample: on a failed run the dialog text buffer is
`stdout + "\n"`; the captured stderr is discarded, so a message that
only went to stderr does not occur in the dialog content, contrary
to the claim that the dialog is formatted from both streams. -/
theorem C4_dialog_stderr_cex :
    stderrOnlyInput.stderr = "fatal: broken"
    ∧ (onTartexComplete stderrOnlyInput).1 =
      [CompleteEffect.notifySend "TarTeX Error"
         "🚨 Failed to create archive using doc.tex",
       CompleteEffect.showErrorDialog "compile output\n" 1]
    ∧ strContains "compile output\n" "fatal: broken" = false := by
  exact ⟨rfl, rfl, by decide⟩

/-- C4 (amended): on tartex failure the text handed to the error
dialog is exactly the subprocess stdout followed by a newline; the
stderr output is captured but not included. -/
theorem C4_dialog_content (inp : CompleteInput) (h : inp.exitCode ≠ 0) :
    CompleteEffect.showErrorDialog (inp.stdout ++ "\n") inp.exitCode ∈
      (onTartexComplete inp).1
    ∧ (∀ d c, CompleteEffect.showErrorDialog d c ∈ (onTartexComplete inp).1 →
        d = inp.stdout ++ "\n" ∧ c = inp.exitCode) := by
  unfold onTartexComplete
  rw [if_pos h]
  constructor
  · simp
  · intro d c hmem
    simp only [List.mem_cons, List.mem_singleton] at hmem
    rcases hmem with hmem | hmem | hmem
    · exact absurd hmem (by simp)
    · exact ⟨(CompleteEffect.showErrorDialog.injEq _ _ _ _).mp hmem.symm |>.1.symm,
        (CompleteEffect.showErrorDialog.injEq _ _ _ _).mp hmem.symm |>.2.symm⟩
    · exact absurd hmem (by simp)

/-- Closed-form evaluation of `C4_dialog_content` at a concrete
failing run, discharging its hypothesis. -/
theorem C4_dialog_content_witness :
    CompleteEffect.showErrorDialog ("stdout text" ++ "\n") 3 ∈
      (onTartexComplete failingRun3Input).1 :=
  (C4_dialog_content _ (by decide)).1

/-- C5 counterexample: with exit status 0 and a `Summary:` line whose
remainder is empty, the claim requires the body to be the remainder
with the last stdout line appended; instead `success_msg[-1]` raises
`IndexError` and no success notification is produced at all. -/
theorem C5_success_body_cex :
    summarySearch "Summary:\t" = some []
    ∧ (onTartexComplete emptySummary2Input).1 = []
    ∧ (onTartexComplete emptySummary2Input).2 = true := by
  exact ⟨rfl, rfl, rfl⟩

/-- C5 (amended): on success, when stdout has a `Summary:` line with
nonempty remainder `rest`, the success notification body is `rest`,
with the last line of stdout appended (after a space) when `rest`
does not end in a period; when stdout has no `Summary:` line the
body is the fallback `Created TarTeX archive using <file name>`.
(When the remainder is empty the handler raises instead, see the
counterexample.) -/
theorem C5_success_body (inp : CompleteInput) (h0 : inp.exitCode = 0) :
    (∀ rest, summarySearch inp.stdout = some rest → rest ≠ [] →
      ((rest.getLast? = some '.' →
         (onTartexComplete inp).1.head? =
           some (CompleteEffect.notifySend "TarTeX Success" ⟨rest⟩))
       ∧ (∀ c, rest.getLast? = some c → c ≠ '.' →
           ∃ lastLine, (splitlines inp.stdout).getLast? = some lastLine ∧
             (onTartexComplete inp).1.head? =
               some (CompleteEffect.notifySend "TarTeX Success"
                 ((⟨rest⟩ : String) ++ " " ++ lastLine)))))
    ∧ (summarySearch inp.stdout = none →
        (onTartexComplete inp).1.head? =
          some (CompleteEffect.notifySend "TarTeX Success"
            ("Created TarTeX archive using " ++ inp.fileName))) := by
  constructor
  · intro rest hsome hne
    constructor
    · intro hdot
      refine onTartexComplete_head_of_msg inp h0 _ ?_
      rw [successMessage_eq_of_last inp rest '.' hsome hdot]
      rw [if_neg (by simp)]
    · intro c hlast hdot
      obtain ⟨lastLine, hl⟩ := getLast?_of_ne_nil (splitlines inp.stdout)
        (splitlines_ne_nil inp.stdout
          (summarySearch_data_ne_nil inp.stdout rest hsome))
      refine ⟨lastLine, hl, ?_⟩
      refine onTartexComplete_head_of_msg inp h0 _ ?_
      rw [successMessage_eq_of_last inp rest c hsome hlast, hl,
        if_pos (by simp [hdot])]
  · intro hnone
    refine onTartexComplete_head_of_msg inp h0 _ ?_
    unfold successMessage
    rw [hnone]

/-- Closed-form evaluation of `C5_success_body`, discharging its
hypotheses for both the period-terminated and the wrapped case. -/
theorem C5_success_body_witness :
    (onTartexComplete periodSummaryInput).1.head? =
      some (CompleteEffect.notifySend "TarTeX Success" "all done.")
    ∧ (onTartexComplete wrappedSummaryInput).1.head? =
      some (CompleteEffect.notifySend "TarTeX Success"
        "made archive last line") := by
  constructor
  · have h := (((C5_success_body periodSummaryInput rfl).1 "all done.".data
      (by decide) (by decide)).1 (by decide))
    exact h
  · have h := (((C5_success_body wrappedSummaryInput rfl).1
      "made archive".data (by decide) (by decide)).2 'e' (by decide) (by decide))
    obtain ⟨lastLine, hl, hh⟩ := h
    have hll : lastLine = "last line" := by
      have hstep : (splitlines wrappedSummaryInput.stdout).getLast? =
          some "last line" := by decide
      rw [hstep] at hl
      exact (Option.some.injEq _ _).mp hl.symm
    rw [hll] at hh
    exact hh

theorem occursAt_lt_length (textL patL : List Char) (j : Nat)
    (hp : patL ≠ []) (h : occursAt textL patL j = true) :
    j < textL.length := by
  by_contra hge
  push_neg at hge
  unfold occursAt at h
  rw [List.drop_eq_nil_of_le hge] at h
  cases patL with
  | nil => exact hp rfl
  | cons c t => simp [List.isPrefixOf] at h

theorem findFromAux_some (textL patL : List Char) :
    ∀ fuel i m, findFromAux textL patL fuel i = some m →
      i ≤ m ∧ occursAt textL patL m = true ∧
      ∀ j, i ≤ j → j < m → occursAt textL patL j = false := by
  intro fuel
  induction fuel with
  | zero => intro i m h; exact absurd h (by simp [findFromAux])
  | succ fuel ih =>
    intro i m h
    unfold findFromAux at h
    by_cases hocc : occursAt textL patL i = true
    · rw [if_pos hocc] at h
      obtain rfl : i = m := (Option.some.injEq _ _).mp h
      exact ⟨Nat.le_refl i, hocc, fun j h1 h2 => absurd h1 (Nat.not_le.mpr h2)⟩
    · rw [if_neg hocc] at h
      obtain ⟨h1, h2, h3⟩ := ih (i + 1) m h
      refine ⟨Nat.le_of_succ_le h1, h2, fun j hj1 hj2 => ?_⟩
      by_cases hji : j = i
      · rw [hji]
        exact (Bool.not_eq_true _).mp hocc
      · exact h3 j (Nat.lt_of_le_of_ne hj1 (fun he => hji he.symm)) hj2

theorem findFromAux_none (textL patL : List Char) :
    ∀ fuel i, findFromAux textL patL fuel i = none →
      ∀ j, i ≤ j → j < i + fuel → occursAt textL patL j = false := by
  intro fuel
  induction fuel with
  | zero => intro i _ j h1 h2; omega
  | succ fuel ih =>
    intro i h j h1 h2
    unfold findFromAux at h
    by_cases hocc : occursAt textL patL i = true
    · rw [if_pos hocc] at h
      exact Option.noConfusion h
    · rw [if_neg hocc] at h
      by_cases hji : j = i
      · rw [hji]
        exact (Bool.not_eq_true _).mp hocc
      · exact ih (i + 1) h j (by omega) (by omega)

theorem findFromIdx_none (textL patL : List Char) (off : Nat)
    (hp : patL ≠ []) (h : findFromIdx textL patL off = none) :
    ∀ j, off ≤ j → occursAt textL patL j = false := by
  intro j hj
  by_cases hocc : occursAt textL patL j = true
  · exfalso
    have hjlen := occursAt_lt_length textL patL j hp hocc
    have hfa := findFromAux_none textL patL (textL.length + 1 - off) off h j hj
      (by omega)
    rw [hfa] at hocc
    exact Bool.noConfusion hocc
  · exact (Bool.not_eq_true _).mp hocc

theorem findFromIdx_some (textL patL : List Char) (off m : Nat)
    (h : findFromIdx textL patL off = some m) :
    off ≤ m ∧ occursAt textL patL m = true ∧
    ∀ j, off ≤ j → j < m → occursAt textL patL j = false :=
  findFromAux_some textL patL _ off m h

theorem searchLoop_sound (textL patL : List Char) :
    ∀ fuel offset p, p ∈ searchLoop textL patL offset fuel →
      offset ≤ p.1 ∧ p.2 = p.1 + patL.length ∧
      occursAt textL patL p.1 = true := by
  intro fuel
  induction fuel with
  | zero => intro offset p h; exact absurd h (by simp [searchLoop])
  | succ fuel ih =>
    intro offset p h
    unfold searchLoop at h
    cases hf : findFromIdx textL patL offset with
    | none => rw [hf] at h; exact absurd h (by simp)
    | some m =>
      rw [hf] at h
      obtain ⟨hm1, hm2, -⟩ := findFromIdx_some textL patL offset m hf
      rcases List.mem_cons.mp h with h | h
      · rw [h]
        exact ⟨hm1, rfl, hm2⟩
      · obtain ⟨h1, h2, h3⟩ := ih (m + patL.length) p h
        exact ⟨by omega, h2, h3⟩

theorem searchLoop_pairwise (textL patL : List Char) :
    ∀ fuel offset,
      (searchLoop textL patL offset fuel).Pairwise
        (fun p q => p.2 ≤ q.1) := by
  intro fuel
  induction fuel with
  | zero => intro offset; simp [searchLoop]
  | succ fuel ih =>
    intro offset
    unfold searchLoop
    cases hf : findFromIdx textL patL offset with
    | none => simp
    | some m =>
      refine List.Pairwise.cons ?_ (ih (m + patL.length))
      intro q hq
      exact (searchLoop_sound textL patL fuel (m + patL.length) q hq).1

theorem searchLoop_complete (textL patL : List Char) (hp : patL ≠ []) :
    ∀ fuel offset, textL.length + 1 - offset ≤ fuel →
      ∀ k, offset ≤ k → occursAt textL patL k = true →
      ∃ p ∈ searchLoop textL patL offset fuel, p.1 ≤ k ∧ k < p.2 := by
  intro fuel
  induction fuel with
  | zero =>
    intro offset hfuel k hk hocc
    have := occursAt_lt_length textL patL k hp hocc
    omega
  | succ fuel ih =>
    intro offset hfuel k hk hocc
    have hplen : 1 ≤ patL.length := by
      cases patL with
      | nil => exact absurd rfl hp
      | cons c t => simp
    unfold searchLoop
    cases hf : findFromIdx textL patL offset with
    | none =>
      exact absurd hocc (by
        rw [findFromIdx_none textL patL offset hp hf k hk]
        exact Bool.noConfusion)
    | some m =>
      obtain ⟨hm1, hm2, hmin⟩ := findFromIdx_some textL patL offset m hf
      have hmk : m ≤ k := by
        by_contra hlt
        push_neg at hlt
        rw [hmin k hk hlt] at hocc
        exact Bool.noConfusion hocc
      by_cases hcov : k < m + patL.length
      · exact ⟨(m, m + patL.length), List.mem_cons_self _ _, hmk, hcov⟩
      · push_neg at hcov
        obtain ⟨p, hpmem, hp1, hp2⟩ :=
          ih (m + patL.length) (by omega) k hcov hocc
        exact ⟨p, List.mem_cons_of_mem _ hpmem, hp1, hp2⟩

theorem string_data_ne_nil (s : String) (h : s ≠ "") : s.data ≠ [] := by
  intro hd
  apply h
  cases s with
  | mk data =>
    simp only at hd
    rw [hd]

/-- C7: after the `search-changed` handler runs, the highlighted
intervals are exactly the non-overlapping case-insensitive
occurrences of the whitespace-stripped query, found scanning left to
right and resuming after the end of each match: every interval has
the query's length and starts at an occurrence (soundness), the
intervals are disjoint and ordered (non-overlap), and every
occurrence start lies inside one of the intervals (completeness);
when the stripped query is empty nothing is highlighted. -/
theorem C7_search_highlight (bufferText query : String) :
    (pyStrip query = "" → onSearchTextChanged bufferText query = [])
    ∧ (pyStrip query ≠ "" →
        (∀ p ∈ onSearchTextChanged bufferText query,
           p.2 = p.1 + (pyStrip query).data.length ∧
           occursAt (pyLower bufferText).data
             (pyLower (pyStrip query)).data p.1 = true)
        ∧ (onSearchTextChanged bufferText query).Pairwise
            (fun p q => p.2 ≤ q.1)
        ∧ (∀ k, occursAt (pyLower bufferText).data
              (pyLower (pyStrip query)).data k = true →
            ∃ p ∈ onSearchTextChanged bufferText query,
              p.1 ≤ k ∧ k < p.2)) := by
  constructor
  · intro h
    unfold onSearchTextChanged
    rw [if_pos h]
  · intro h
    have hpat : (pyLower (pyStrip query)).data ≠ [] := by
      intro hd
      apply string_data_ne_nil (pyStrip query) h
      have hmap : ((pyStrip query).data.map Char.toLower) = [] := hd
      exact List.map_eq_nil_iff.mp hmap
    have hlen : (pyLower (pyStrip query)).data.length =
        (pyStrip query).data.length := List.length_map _ _
    unfold onSearchTextChanged
    rw [if_neg h]
    refine ⟨?_, ?_, ?_⟩
    · intro p hp
      obtain ⟨-, h2, h3⟩ := searchLoop_sound _ _ _ _ p hp
      exact ⟨by rw [h2, hlen], h3⟩
    · exact searchLoop_pairwise _ _ _ _
    · intro k hocc
      exact searchLoop_complete _ _ hpat _ 0 (by omega) k (Nat.zero_le k) hocc

/-- Closed-form evaluation of `C7_search_highlight`: a blank query
highlights nothing, and the occurrence of `hello` at offset 6 of
`Hello hello` is covered by a highlight interval. -/
theorem C7_search_highlight_witness :
    onSearchTextChanged "abc" "   " = []
    ∧ (∃ p ∈ onSearchTextChanged "Hello hello" "hello",
        p.1 ≤ 6 ∧ 6 < p.2) := by
  constructor
  · exact (C7_search_highlight "abc" "   ").1 (by decide)
  · exact ((C7_search_highlight "Hello hello" "hello").2
      (by decide)).2.2 6 (by decide)

theorem linesOnL_ne_nil (cs : List Char) : linesOnL cs ≠ [] := by
  cases cs with
  | nil => exact fun h => List.noConfusion h
  | cons c rest =>
    unfold linesOnL
    by_cases hc : c = '\n'
    · rw [if_pos hc]
      exact fun h => List.noConfusion h
    · rw [if_neg hc]
      cases linesOnL rest with
      | nil => exact fun h => List.noConfusion h
      | cons l ls => exact fun h => List.noConfusion h

theorem linesOnL_of_no_nl (cs : List Char) (h : ∀ c ∈ cs, c ≠ '\n') :
    linesOnL cs = [cs] := by
  induction cs with
  | nil => rfl
  | cons c rest ih =>
    unfold linesOnL
    rw [if_neg (h c (List.mem_cons_self c rest))]
    rw [ih (fun x hx => h x (List.mem_cons_of_mem c hx))]

theorem linesOnL_append_nl (l rest : List Char) (hl : ∀ c ∈ l, c ≠ '\n') :
    linesOnL (l ++ '\n' :: rest) = l :: linesOnL rest := by
  induction l with
  | nil => rfl
  | cons c l2 ih =>
    show linesOnL (c :: (l2 ++ '\n' :: rest)) = (c :: l2) :: linesOnL rest
    have hstep : linesOnL (c :: (l2 ++ '\n' :: rest)) =
        if c = '\n' then [] :: linesOnL (l2 ++ '\n' :: rest)
        else
          match linesOnL (l2 ++ '\n' :: rest) with
          | l :: ls => (c :: l) :: ls
          | [] => [[c]] := rfl
    rw [hstep, if_neg (hl c (List.mem_cons_self c l2)),
      ih (fun x hx => hl x (List.mem_cons_of_mem c hx))]

theorem first_line_decomp (cs : List Char) :
    (∀ c ∈ cs, c ≠ '\n') ∨
    ∃ l rest, cs = l ++ '\n' :: rest ∧ ∀ c ∈ l, c ≠ '\n' := by
  induction cs with
  | nil =>
    left
    intro c hc
    exact absurd hc (List.not_mem_nil c)
  | cons c rest ih =>
    by_cases hc : c = '\n'
    · right
      exact ⟨[], rest, by rw [hc]; rfl, by intro x hx; exact absurd hx (List.not_mem_nil x)⟩
    · rcases ih with h | ⟨l, r2, heq, hl⟩
      · left
        intro x hx
        rcases List.mem_cons.mp hx with hx | hx
        · rw [hx]; exact hc
        · exact h x hx
      · right
        refine ⟨c :: l, r2, ?_, ?_⟩
        · rw [heq]; rfl
        · intro x hx
          rcases List.mem_cons.mp hx with hx | hx
          · rw [hx]; exact hc
          · exact hl x hx

theorem restOfLine_of_no_nl (cs : List Char) (h : ∀ c ∈ cs, c ≠ '\n') :
    restOfLine cs = cs := by
  induction cs with
  | nil => rfl
  | cons c rest ih =>
    unfold restOfLine
    rw [List.takeWhile_cons]
    rw [decide_eq_true (h c (List.mem_cons_self c rest))]
    show c :: restOfLine rest = c :: rest
    rw [ih (fun x hx => h x (List.mem_cons_of_mem c hx))]

theorem restOfLine_append_nl (l rest : List Char) (hl : ∀ c ∈ l, c ≠ '\n') :
    restOfLine (l ++ '\n' :: rest) = l := by
  induction l with
  | nil =>
    show restOfLine ('\n' :: rest) = []
    unfold restOfLine
    rw [List.takeWhile_cons]
    simp
  | cons c l2 ih =>
    show restOfLine (c :: (l2 ++ '\n' :: rest)) = c :: l2
    unfold restOfLine
    rw [List.takeWhile_cons]
    rw [decide_eq_true (hl c (List.mem_cons_self c l2))]
    show c :: restOfLine (l2 ++ '\n' :: rest) = c :: l2
    rw [ih (fun x hx => hl x (List.mem_cons_of_mem c hx))]

theorem isPrefixOf_eq_append (p cs : List Char) (h : p.isPrefixOf cs = true) :
    cs = p ++ cs.drop p.length := by
  induction p generalizing cs with
  | nil => simp
  | cons a p2 ih =>
    cases cs with
    | nil => simp [List.isPrefixOf] at h
    | cons b cs2 =>
      simp only [List.isPrefixOf, Bool.and_eq_true, beq_iff_eq] at h
      obtain ⟨rfl, h2⟩ := h
      show a :: cs2 = a :: (p2 ++ cs2.drop p2.length)
      exact congrArg (a :: ·) (ih cs2 h2)

theorem isPrefixOf_append_nl :
    ∀ (p l rest : List Char), (∀ c ∈ p, c ≠ '\n') → (∀ c ∈ l, c ≠ '\n') →
      p.isPrefixOf (l ++ '\n' :: rest) = p.isPrefixOf l := by
  intro p
  induction p with
  | nil => intro l rest hp hl; simp [List.isPrefixOf]
  | cons a p2 ih =>
    intro l rest hp hl
    cases l with
    | nil =>
      show (a :: p2).isPrefixOf ('\n' :: rest) = (a :: p2).isPrefixOf []
      have ha : a ≠ '\n' := hp a (List.mem_cons_self a p2)
      simp [List.isPrefixOf, ha]
    | cons b l2 =>
      show (a :: p2).isPrefixOf (b :: (l2 ++ '\n' :: rest)) =
        (a :: p2).isPrefixOf (b :: l2)
      simp only [List.isPrefixOf]
      rw [ih l2 rest (fun c hc => hp c (List.mem_cons_of_mem a hc))
        (fun c hc => hl c (List.mem_cons_of_mem b hc))]

theorem tryAltAt_no_nl (alt : LeadAlt) (cs : List Char) (_hwf : altWf alt)
    (hcs : ∀ c ∈ cs, c ≠ '\n') :
    tryAltAt alt cs = none ∨ tryAltAt alt cs = some cs := by
  unfold tryAltAt
  by_cases hpre : alt.lead.data.isPrefixOf cs = true
  · simp only [if_pos hpre]
    have hdec := isPrefixOf_eq_append _ _ hpre
    by_cases hws : alt.needsWs = true
    · simp only [if_pos hws]
      cases hdrop : cs.drop alt.lead.data.length with
      | nil => left; rfl
      | cons c rest2 =>
        by_cases hsp : isPySpace c = true
        · right
          show (if isPySpace c = true then
                  some (alt.lead.data ++ c :: restOfLine rest2)
                else none) = some cs
          rw [if_pos hsp]
          have hr2 : restOfLine rest2 = rest2 :=
            restOfLine_of_no_nl rest2 (fun x hx => hcs x (by
              rw [hdec, hdrop]
              exact List.mem_append_right _ (List.mem_cons_of_mem c hx)))
          rw [hr2, hdec, hdrop]
        · left
          show (if isPySpace c = true then
                  some (alt.lead.data ++ c :: restOfLine rest2)
                else none) = none
          rw [if_neg hsp]
    · simp only [if_neg hws]
      right
      have hr : restOfLine (cs.drop alt.lead.data.length) =
          cs.drop alt.lead.data.length :=
        restOfLine_of_no_nl _ (fun x hx => hcs x (List.mem_of_mem_drop hx))
      rw [hr]
      exact congrArg some hdec.symm
  · simp only [if_neg hpre]
    left
    trivial

theorem tryAltAt_append_nl (alt : LeadAlt) (l rest : List Char)
    (hwf : altWf alt) (hl : ∀ c ∈ l, c ≠ '\n')
    (hbad : alt.needsWs = true → l ≠ alt.lead.data) :
    tryAltAt alt (l ++ '\n' :: rest) = tryAltAt alt l := by
  obtain ⟨hne, hnl⟩ := hwf
  unfold tryAltAt
  rw [isPrefixOf_append_nl alt.lead.data l rest hnl hl]
  by_cases hpre : alt.lead.data.isPrefixOf l = true
  · simp only [if_pos hpre]
    have hdec := isPrefixOf_eq_append _ _ hpre
    have hlen : alt.lead.data.length ≤ l.length := by
      have hcong := congrArg List.length hdec
      rw [List.length_append] at hcong
      omega
    have hsubl : ∀ x ∈ l.drop alt.lead.data.length, x ≠ '\n' :=
      fun x hx => hl x (List.mem_of_mem_drop hx)
    rw [List.drop_append_of_le_length hlen]
    by_cases hws : alt.needsWs = true
    · simp only [if_pos hws]
      cases hld : l.drop alt.lead.data.length with
      | nil =>
        exact absurd (by rw [hdec, hld, List.append_nil]) (hbad hws)
      | cons c r2 =>
        rw [List.cons_append]
        show (if isPySpace c then
                some (alt.lead.data ++ c :: restOfLine (r2 ++ '\n' :: rest))
              else none) =
             (if isPySpace c then
                some (alt.lead.data ++ c :: restOfLine r2)
              else none)
        have hr2 : ∀ x ∈ r2, x ≠ '\n' := fun x hx => hsubl x (by
          rw [hld]
          exact List.mem_cons_of_mem c hx)
        rw [restOfLine_append_nl r2 rest hr2, restOfLine_of_no_nl r2 hr2]
    · simp only [if_neg hws]
      rw [restOfLine_append_nl _ rest hsubl, restOfLine_of_no_nl _ hsubl]
  · simp only [if_neg hpre]

theorem tryAlts_nil (alts : List LeadAlt) (hwf : ∀ a ∈ alts, altWf a) :
    tryAlts alts [] = none := by
  induction alts with
  | nil => rfl
  | cons alt t ih =>
    have hstep : tryAlts (alt :: t) ([] : List Char) =
        match tryAltAt alt [] with
        | some m => some m
        | none => tryAlts t [] := rfl
    rw [hstep]
    have hat : tryAltAt alt ([] : List Char) = none := by
      unfold tryAltAt
      have hpre : alt.lead.data.isPrefixOf ([] : List Char) = false := by
        obtain ⟨hne, -⟩ := hwf alt (List.mem_cons_self _ _)
        cases h : alt.lead.data with
        | nil => exact absurd h hne
        | cons a as => rfl
      simp [hpre]
    rw [hat]
    exact ih (fun a ha => hwf a (List.mem_cons_of_mem _ ha))

theorem tryAlts_no_nl (alts : List LeadAlt) (cs : List Char)
    (hwf : ∀ a ∈ alts, altWf a) (hcs : ∀ c ∈ cs, c ≠ '\n') :
    tryAlts alts cs = none ∨ tryAlts alts cs = some cs := by
  induction alts with
  | nil => left; rfl
  | cons alt t ih =>
    have hstep : tryAlts (alt :: t) cs =
        match tryAltAt alt cs with
        | some m => some m
        | none => tryAlts t cs := rfl
    rw [hstep]
    rcases tryAltAt_no_nl alt cs (hwf alt (List.mem_cons_self _ _)) hcs with h | h
    · rw [h]
      exact ih (fun a ha => hwf a (List.mem_cons_of_mem _ ha))
    · rw [h]
      right
      rfl

theorem tryAlts_append_nl (alts : List LeadAlt) (l rest : List Char)
    (hwf : ∀ a ∈ alts, altWf a) (hl : ∀ c ∈ l, c ≠ '\n')
    (hbad : ∀ a ∈ alts, a.needsWs = true → l ≠ a.lead.data) :
    tryAlts alts (l ++ '\n' :: rest) = tryAlts alts l := by
  induction alts with
  | nil => rfl
  | cons alt t ih =>
    have hstep1 : tryAlts (alt :: t) (l ++ '\n' :: rest) =
        match tryAltAt alt (l ++ '\n' :: rest) with
        | some m => some m
        | none => tryAlts t (l ++ '\n' :: rest) := rfl
    have hstep2 : tryAlts (alt :: t) l =
        match tryAltAt alt l with
        | some m => some m
        | none => tryAlts t l := rfl
    rw [hstep1, hstep2,
      tryAltAt_append_nl alt l rest (hwf alt (List.mem_cons_self _ _)) hl
        (hbad alt (List.mem_cons_self _ _))]
    cases tryAltAt alt l with
    | some m => rfl
    | none =>
      exact ih (fun a ha => hwf a (List.mem_cons_of_mem _ ha))
        (fun a ha => hbad a (List.mem_cons_of_mem _ ha))

theorem findallAux_nil (alts : List LeadAlt) (hwf : ∀ a ∈ alts, altWf a)
    (fuel : Nat) (b : Bool) : findallAux alts fuel [] b = [] := by
  cases fuel with
  | zero => rfl
  | succ f =>
    have hstep : findallAux alts (f + 1) [] b =
        match (if b then tryAlts alts [] else none), ([] : List Char) with
        | some m, _ => m :: findallAux alts f (([] : List Char).drop m.length) false
        | none, [] => []
        | none, c :: rest => findallAux alts f rest (decide (c = '\n')) := rfl
    rw [hstep]
    cases b with
    | false => rfl
    | true =>
      rw [show (if true then tryAlts alts [] else none) = tryAlts alts [] from rfl,
        tryAlts_nil alts hwf]

theorem findallAux_cons_of_none (alts : List LeadAlt) (f : Nat) (c : Char)
    (rest : List Char) (htry : tryAlts alts (c :: rest) = none) :
    findallAux alts (f + 1) (c :: rest) true =
      findallAux alts f rest (decide (c = '\n')) := by
  have hstep : findallAux alts (f + 1) (c :: rest) true =
      match tryAlts alts (c :: rest), c :: rest with
      | some m, _ => m :: findallAux alts f ((c :: rest).drop m.length) false
      | none, [] => []
      | none, c2 :: rest2 => findallAux alts f rest2 (decide (c2 = '\n')) := rfl
  rw [hstep, htry]

theorem findallAux_cons_of_some (alts : List LeadAlt) (f : Nat)
    (cs m : List Char) (htry : tryAlts alts cs = some m) :
    findallAux alts (f + 1) cs true =
      m :: findallAux alts f (cs.drop m.length) false := by
  cases cs with
  | nil =>
    have hstep : findallAux alts (f + 1) [] true =
        match tryAlts alts [], ([] : List Char) with
        | some m2, _ =>
          m2 :: findallAux alts f (([] : List Char).drop m2.length) false
        | none, [] => []
        | none, c2 :: rest2 => findallAux alts f rest2 (decide (c2 = '\n')) :=
      rfl
    rw [hstep, htry]
  | cons c rest =>
    have hstep : findallAux alts (f + 1) (c :: rest) true =
        match tryAlts alts (c :: rest), c :: rest with
        | some m2, _ =>
          m2 :: findallAux alts f ((c :: rest).drop m2.length) false
        | none, [] => []
        | none, c2 :: rest2 => findallAux alts f rest2 (decide (c2 = '\n')) :=
      rfl
    rw [hstep, htry]

theorem findallAux_step_false (alts : List LeadAlt) (f : Nat) (c : Char)
    (rest : List Char) :
    findallAux alts (f + 1) (c :: rest) false =
      findallAux alts f rest (decide (c = '\n')) := rfl

theorem findallAux_false_no_nl (alts : List LeadAlt)
    (hwf : ∀ a ∈ alts, altWf a) :
    ∀ (cs : List Char) (fuel : Nat), (∀ c ∈ cs, c ≠ '\n') →
      findallAux alts fuel cs false = [] := by
  intro cs
  induction cs with
  | nil => intro fuel _; exact findallAux_nil alts hwf fuel false
  | cons c rest ih =>
    intro fuel h
    cases fuel with
    | zero => rfl
    | succ f =>
      rw [findallAux_step_false,
        decide_eq_false (h c (List.mem_cons_self c rest))]
      exact ih f (fun x hx => h x (List.mem_cons_of_mem c hx))

theorem findallAux_skip (alts : List LeadAlt) :
    ∀ (l rest : List Char) (fuel : Nat), (∀ c ∈ l, c ≠ '\n') →
      l.length + 1 ≤ fuel →
      findallAux alts fuel (l ++ '\n' :: rest) false =
        findallAux alts (fuel - (l.length + 1)) rest true := by
  intro l
  induction l with
  | nil =>
    intro rest fuel _ hfuel
    cases fuel with
    | zero => omega
    | succ f =>
      show findallAux alts (f + 1) ('\n' :: rest) false =
        findallAux alts (f + 1 - 1) rest true
      rw [findallAux_step_false, decide_eq_true rfl, Nat.add_sub_cancel]
  | cons c l2 ih =>
    intro rest fuel hl hfuel
    cases fuel with
    | zero => omega
    | succ f =>
      show findallAux alts (f + 1) (c :: (l2 ++ '\n' :: rest)) false =
        findallAux alts (f + 1 - ((c :: l2).length + 1)) rest true
      rw [findallAux_step_false,
        decide_eq_false (hl c (List.mem_cons_self c l2)),
        ih rest f (fun x hx => hl x (List.mem_cons_of_mem c hx)) (by
          simp only [List.length_cons] at hfuel
          omega)]
      congr 1
      simp only [List.length_cons]
      omega

theorem noBareLeadLine_rest (alts : List LeadAlt) (l rest : List Char)
    (hl : ∀ c ∈ l, c ≠ '\n')
    (h : noBareLeadLine alts (l ++ '\n' :: rest)) :
    noBareLeadLine alts rest := by
  intro a ha hws hmem
  apply h a ha hws
  rw [linesOnL_append_nl l rest hl,
    List.dropLast_cons_of_ne_nil (linesOnL_ne_nil rest)]
  exact List.mem_cons_of_mem l hmem

theorem noBareLeadLine_head (alts : List LeadAlt) (l rest : List Char)
    (hl : ∀ c ∈ l, c ≠ '\n')
    (h : noBareLeadLine alts (l ++ '\n' :: rest)) :
    ∀ a ∈ alts, a.needsWs = true → l ≠ a.lead.data := by
  intro a ha hws heq
  apply h a ha hws
  rw [linesOnL_append_nl l rest hl,
    List.dropLast_cons_of_ne_nil (linesOnL_ne_nil rest), ← heq]
  exact List.mem_cons_self l _

theorem tryAlts_some_ne_nil (alts : List LeadAlt) (l m : List Char)
    (hwf : ∀ a ∈ alts, altWf a) (h : tryAlts alts l = some m) : l ≠ [] := by
  intro hnil
  rw [hnil, tryAlts_nil alts hwf] at h
  exact Option.noConfusion h

theorem findallAux_perLine (alts : List LeadAlt)
    (hwfAll : ∀ a ∈ alts, altWf a) :
    ∀ (n : Nat) (cs : List Char) (fuel : Nat), cs.length ≤ n →
      cs.length + 1 ≤ fuel → noBareLeadLine alts cs →
      findallAux alts fuel cs true =
        (linesOnL cs).filter (fun l => (tryAlts alts l).isSome) := by
  intro n
  induction n with
  | zero =>
    intro cs fuel h1 _ _
    obtain rfl : cs = [] := List.length_eq_zero.mp (Nat.le_zero.mp h1)
    rw [findallAux_nil alts hwfAll fuel true]
    show ([] : List (List Char)) = [[]].filter fun l => (tryAlts alts l).isSome
    rw [List.filter_cons]
    simp [tryAlts_nil alts hwfAll]
  | succ n ih =>
    intro cs fuel h1 h2 hprov
    rcases first_line_decomp cs with hnl | ⟨l, rest, rfl, hlnl⟩
    · -- the whole text is a single newline-free line
      rw [linesOnL_of_no_nl cs hnl]
      cases fuel with
      | zero => omega
      | succ f =>
        cases htry : tryAlts alts cs with
        | none =>
          cases cs with
          | nil =>
            rw [findallAux_nil alts hwfAll _ true]
            rw [List.filter_cons]
            simp [htry]
          | cons c rest2 =>
            rw [findallAux_cons_of_none alts f c rest2 htry,
              decide_eq_false (hnl c (List.mem_cons_self c rest2)),
              findallAux_false_no_nl alts hwfAll rest2 f
                (fun x hx => hnl x (List.mem_cons_of_mem c hx))]
            rw [List.filter_cons]
            simp [htry]
        | some m =>
          have hm : m = cs := by
            rcases tryAlts_no_nl alts cs hwfAll hnl with h | h
            · rw [htry] at h; exact Option.noConfusion h
            · rw [htry] at h
              exact ((Option.some.injEq _ _).mp h)
          rw [hm] at htry
          rw [findallAux_cons_of_some alts f cs cs htry, List.drop_length,
            findallAux_nil alts hwfAll f false]
          rw [List.filter_cons]
          simp [htry]
    · -- cs = l ++ '\n' :: rest with l newline-free
      have hlines := linesOnL_append_nl l rest hlnl
      have hbadl := noBareLeadLine_head alts l rest hlnl hprov
      have hprovrest := noBareLeadLine_rest alts l rest hlnl hprov
      have hlen : (l ++ '\n' :: rest).length = l.length + 1 + rest.length := by
        rw [List.length_append, List.length_cons]
        omega
      have htryEq := tryAlts_append_nl alts l rest hwfAll hlnl hbadl
      cases fuel with
      | zero => omega
      | succ f =>
        cases htry : tryAlts alts l with
        | none =>
          have htryCs : tryAlts alts (l ++ '\n' :: rest) = none :=
            htryEq.trans htry
          rw [hlines, List.filter_cons]
          have hpred : ((tryAlts alts l).isSome = true) = False := by
            rw [htry]
            simp
          cases l with
          | nil =>
            rw [show (([] : List Char) ++ '\n' :: rest) = '\n' :: rest from rfl]
              at htryCs ⊢
            rw [findallAux_cons_of_none alts f '\n' rest htryCs,
              decide_eq_true rfl]
            rw [ih rest f (by rw [hlen] at h1; simp at h1 ⊢; omega)
              (by rw [hlen] at h2; simp at h2 ⊢; omega) hprovrest]
            simp [htry]
          | cons c l2 =>
            rw [show ((c :: l2) ++ '\n' :: rest) = c :: (l2 ++ '\n' :: rest)
              from rfl] at htryCs ⊢
            rw [findallAux_cons_of_none alts f c (l2 ++ '\n' :: rest) htryCs,
              decide_eq_false (hlnl c (List.mem_cons_self c l2)),
              findallAux_skip alts l2 rest f
                (fun x hx => hlnl x (List.mem_cons_of_mem c hx))
                (by rw [hlen] at h2; simp at h2; omega)]
            rw [ih rest (f - (l2.length + 1))
              (by rw [hlen] at h1; simp at h1; omega)
              (by rw [hlen] at h2; simp at h2; omega) hprovrest]
            simp [htry]
        | some m =>
          have hm : m = l := by
            rcases tryAlts_no_nl alts l hwfAll hlnl with h | h
            · rw [htry] at h; exact Option.noConfusion h
            · rw [htry] at h
              exact ((Option.some.injEq _ _).mp h)
          rw [hm] at htry
          have hlne : l ≠ [] := tryAlts_some_ne_nil alts l l hwfAll htry
          have hlpos : 1 ≤ l.length := by
            cases l with
            | nil => exact absurd rfl hlne
            | cons a b => simp
          have htryCs : tryAlts alts (l ++ '\n' :: rest) = some l :=
            htryEq.trans htry
          rw [findallAux_cons_of_some alts f (l ++ '\n' :: rest) l htryCs,
            List.drop_left]
          cases f with
          | zero => rw [hlen] at h2; omega
          | succ f2 =>
            rw [findallAux_step_false alts f2 '\n' rest, decide_eq_true rfl]
            rw [ih rest f2 (by rw [hlen] at h1; omega)
              (by rw [hlen] at h2; omega) hprovrest]
            rw [hlines, List.filter_cons]
            simp [htry]

theorem errorsLineMatch_eq (line : List Char) :
    errorsLineMatch line = (tryAlts errorsAlts line).isSome := by
  have hstep : tryAlts errorsAlts line =
      match tryAltAt { lead := "CRITICAL", needsWs := false } line with
      | some m => some m
      | none =>
        match tryAltAt { lead := "ERROR", needsWs := true } line with
        | some m => some m
        | none => none := rfl
  rw [hstep]
  by_cases hc : ("CRITICAL".data).isPrefixOf line = true
  · have h1 : tryAltAt { lead := "CRITICAL", needsWs := false } line =
        some ("CRITICAL".data ++
          restOfLine (line.drop ("CRITICAL".data).length)) := by
      unfold tryAltAt
      rw [if_pos hc]
      rfl
    rw [h1]
    unfold errorsLineMatch
    rw [hc]
    rfl
  · have hc2 : ("CRITICAL".data).isPrefixOf line = false := by
      revert hc
      cases ("CRITICAL".data).isPrefixOf line <;> simp
    have h1 : tryAltAt { lead := "CRITICAL", needsWs := false } line =
        none := by
      unfold tryAltAt
      rw [if_neg hc]
    rw [h1]
    show errorsLineMatch line =
      (match tryAltAt { lead := "ERROR", needsWs := true } line with
       | some m => some m
       | none => none).isSome
    unfold errorsLineMatch
    rw [hc2, Bool.false_or]
    by_cases he : ("ERROR".data).isPrefixOf line = true
    · have h2 : tryAltAt { lead := "ERROR", needsWs := true } line =
          match line.drop 5 with
          | c :: rest2 =>
            if isPySpace c then some ("ERROR".data ++ c :: restOfLine rest2)
            else none
          | [] => none := by
        unfold tryAltAt
        rw [if_pos he]
        rfl
      rw [he, Bool.true_and, h2]
      cases hd : line.drop 5 with
      | nil => rfl
      | cons ch r2 =>
        by_cases hsp : isPySpace ch = true
        · simp [hsp]
        · simp [hsp]
    · have he2 : ("ERROR".data).isPrefixOf line = false := by
        revert he
        cases ("ERROR".data).isPrefixOf line <;> simp
      have h2 : tryAltAt { lead := "ERROR", needsWs := true } line = none := by
        unfold tryAltAt
        rw [if_neg he]
      rw [h2, he2, Bool.false_and]
      rfl

theorem warningsLineMatch_eq (line : List Char) :
    warningsLineMatch line = (tryAlts warningsAlts line).isSome := by
  have hstep : tryAlts warningsAlts line =
      match tryAltAt { lead := "WARNING", needsWs := true } line with
      | some m => some m
      | none => none := rfl
  rw [hstep]
  by_cases hw : ("WARNING".data).isPrefixOf line = true
  · have h2 : tryAltAt { lead := "WARNING", needsWs := true } line =
        match line.drop 7 with
        | c :: rest2 =>
          if isPySpace c then some ("WARNING".data ++ c :: restOfLine rest2)
          else none
        | [] => none := by
      unfold tryAltAt
      rw [if_pos hw]
      rfl
    unfold warningsLineMatch
    rw [hw, Bool.true_and, h2]
    cases hd : line.drop 7 with
    | nil => rfl
    | cons ch r2 =>
      by_cases hsp : isPySpace ch = true
      · simp [hsp]
      · simp [hsp]
  · have hw2 : ("WARNING".data).isPrefixOf line = false := by
      revert hw
      cases ("WARNING".data).isPrefixOf line <;> simp
    have h2 : tryAltAt { lead := "WARNING", needsWs := true } line = none := by
      unfold tryAltAt
      rw [if_neg hw]
    unfold warningsLineMatch
    rw [h2, hw2, Bool.false_and]
    rfl

/-- C10 counterexample: for error output `ERROR\nfoo` the `\s` of the
compiled pattern matches the newline after the bare `ERROR` line, so
`findall` returns the two-line match `ERROR\nfoo` and the buffer is
set to `ERROR\nfoo\n`; the claim's per-line reading (`ERROR` must be
followed by a whitespace character within the line) selects no line
at all, so the claimed buffer content would be empty. -/
theorem C10_filter_cex :
    filterMsg "Errors" "ERROR\nfoo" = some "ERROR\nfoo\n"
    ∧ concatWithNl
        (((linesOnL ("ERROR\nfoo").data).filter errorsLineMatch).map
          fun l => String.mk l) = ""
    ∧ ("ERROR\nfoo\n" : String) ≠ "" := by
  refine ⟨rfl, rfl, by decide⟩

/-- C10 (amended): with the `All` toggle the buffer is restored to
the full error output; with `Errors` (resp. `Warnings`), provided no
line before the last is exactly `ERROR` (resp. `WARNING`), the
buffer is the concatenation, in original order and each followed by
a newline, of exactly the lines matching `^(?:CRITICAL|ERROR\s).*$`
(resp. `^(?:WARNING\s).*$`) applied per line — `CRITICAL` needs no
following whitespace, `ERROR`/`WARNING` need a whitespace character
after them.  (When a non-final line is exactly `ERROR`/`WARNING`,
the `\s` consumes the newline and the match also swallows the
following line, see the counterexample.) -/
theorem C10_filter_branches (d : String) :
    filterMsg "All" d = some d
    ∧ (("ERROR".data ∉ (linesOnL d.data).dropLast) →
        filterMsg "Errors" d =
          some (concatWithNl
            (((linesOnL d.data).filter errorsLineMatch).map
              fun l => String.mk l)))
    ∧ (("WARNING".data ∉ (linesOnL d.data).dropLast) →
        filterMsg "Warnings" d =
          some (concatWithNl
            (((linesOnL d.data).filter warningsLineMatch).map
              fun l => String.mk l))) := by
  have hwfE : ∀ a ∈ errorsAlts, altWf a := by
    intro a ha
    rcases List.mem_cons.mp ha with rfl | ha2
    · exact ⟨by decide, by decide⟩
    · rcases List.mem_cons.mp ha2 with rfl | ha3
      · exact ⟨by decide, by decide⟩
      · exact absurd ha3 (List.not_mem_nil a)
  have hwfW : ∀ a ∈ warningsAlts, altWf a := by
    intro a ha
    rcases List.mem_cons.mp ha with rfl | ha2
    · exact ⟨by decide, by decide⟩
    · exact absurd ha2 (List.not_mem_nil a)
  refine ⟨rfl, ?_, ?_⟩
  · intro h
    have hprov : noBareLeadLine errorsAlts d.data := by
      intro a ha hws
      rcases List.mem_cons.mp ha with rfl | ha2
      · exact absurd hws (by decide)
      · rcases List.mem_cons.mp ha2 with rfl | ha3
        · exact h
        · exact absurd ha3 (List.not_mem_nil a)
    have heq : filterMsg "Errors" d =
        some (concatWithNl (findallMatches errorsAlts d)) := rfl
    rw [heq]
    unfold findallMatches
    rw [findallAux_perLine errorsAlts hwfE d.data.length d.data
      (d.data.length + 1) (Nat.le_refl _) (Nat.le_refl _) hprov]
    rw [List.filter_congr (fun x _ => (errorsLineMatch_eq x).symm)]
  · intro h
    have hprov : noBareLeadLine warningsAlts d.data := by
      intro a ha hws
      rcases List.mem_cons.mp ha with rfl | ha2
      · exact h
      · exact absurd ha2 (List.not_mem_nil a)
    have heq : filterMsg "Warnings" d =
        some (concatWithNl (findallMatches warningsAlts d)) := rfl
    rw [heq]
    unfold findallMatches
    rw [findallAux_perLine warningsAlts hwfW d.data.length d.data
      (d.data.length + 1) (Nat.le_refl _) (Nat.le_refl _) hprov]
    rw [List.filter_congr (fun x _ => (warningsLineMatch_eq x).symm)]

/-- Closed-form evaluation of `C10_filter_branches`, discharging its
hypotheses at concrete error outputs. -/
theorem C10_filter_branches_witness :
    filterMsg "All" "x" = some "x"
    ∧ filterMsg "Errors" "CRITICAL boom\nINFO ok\nERROR  bad" =
        some (concatWithNl
          (((linesOnL ("CRITICAL boom\nINFO ok\nERROR  bad").data).filter
            errorsLineMatch).map fun l => String.mk l))
    ∧ filterMsg "Warnings" "WARNING w\nok" =
        some (concatWithNl
          (((linesOnL ("WARNING w\nok").data).filter
            warningsLineMatch).map fun l => String.mk l)) := by
  refine ⟨(C10_filter_branches "x").1, ?_, ?_⟩
  · exact (C10_filter_branches _).2.1 (by decide)
  · exact (C10_filter_branches _).2.2 (by decide)

end NautilusTartex
